import Mathlib

/-!
# Verification of the wazo-auth token lifecycle core

Shallow embedding of the token engine of this repository
(wazo_auth/token.py: the ACL matcher of class Token, the Manager, the
ExpiredTokenRemover) and of the tenant-tree helper, together with proofs of
the behavioural properties stated in the specification.

Strings are modelled as lists of characters (Python str).  The compiled
regular expressions produced by Token._transform_acl_to_regex only ever use
four kinds of syntax (escaped literal characters, the class written for a
template star, the dot-star written for a template hash, and the alternation
group inserted for the literal segment of the principal, anchored at both
ends), so patterns are modelled by lists of those four items and matching by
the standard anchored regular-expression semantics (full consumption of the
input, existential choice at each wildcard), which is what the boolean
result of Python re.match against the twice-anchored pattern computes.
-/

namespace WazoAuth

/-- One syntactic item of a compiled ACL pattern, as produced by
Token._transform_acl_to_regex: an escaped literal character, the class
standing for a template star (any characters except a dot), the dot-star
standing for a template hash (any characters), or the alternation group
standing for a principal-or-me segment.  The alternation carries the
auth id the source interpolates into the pattern text (auth ids are opaque
uuid-like identifiers, matched literally). -/
inductive RItem where
  | lit (c : Char)
  | star
  | hash
  | meAlt (authId : List Char)
deriving DecidableEq

/-- First stage of Token._transform_acl_to_regex: re.escape followed by the
replacement of every escaped star by the one-segment class and of every
escaped hash by the any-characters wildcard.  re.escape turns each template
character into an escaped literal, and the two string replaces rewrite
exactly the escape pairs that came from a star or hash character of the
template, so the composition maps each template character to one item. -/
def escapeAndWildcards : List Char → List RItem
  | [] => []
  | c :: rest =>
      (if c = '*' then RItem.star
       else if c = '#' then RItem.hash
       else RItem.lit c) :: escapeAndWildcards rest

/-- The dotted-me replacement of Token._transform_acl_me_to_uuid_or_me: the
non-overlapping left-to-right replacement of every escaped-dot, m, e,
escaped-dot run by escaped-dot, alternation group, escaped-dot.  As in the
Python str.replace, scanning resumes after the replaced occurrence (the
trailing dot of a replaced run is consumed and cannot open the next run). -/
def transform_acl_me_dots (authId : List Char) : List RItem → List RItem
  | RItem.lit '.' :: RItem.lit 'm' :: RItem.lit 'e' :: RItem.lit '.' :: rest =>
      RItem.lit '.' :: RItem.meAlt authId :: RItem.lit '.' ::
        transform_acl_me_dots authId rest
  | x :: rest => x :: transform_acl_me_dots authId rest
  | [] => []

/-- Token._transform_acl_me_to_uuid_or_me: the dotted replacement above,
then, when the resulting pattern still ends in escaped-dot, m, e, the
replacement of that tail by escaped-dot followed by the alternation group
(the source drops the four final pattern characters and appends the group
preceded by an escaped dot). -/
def transform_acl_me_to_uuid_or_me (authId : List Char) (items : List RItem) :
    List RItem :=
  let replaced := transform_acl_me_dots authId items
  if replaced.reverse.take 3 = [RItem.lit 'e', RItem.lit 'm', RItem.lit '.'] then
    replaced.take (replaced.length - 3) ++ [RItem.lit '.', RItem.meAlt authId]
  else
    replaced

/-- Token._transform_acl_to_regex: escape and wildcard replacement, then the
me-to-principal substitution.  The anchoring of the pattern at both ends is
part of the matching semantics (reMatch consumes the whole input). -/
def transform_acl_to_regex (authId : List Char) (acl : List Char) : List RItem :=
  transform_acl_me_to_uuid_or_me authId (escapeAndWildcards acl)

/-- Backtracking helper of the matching semantics: try the continuation on
the current suffix and on every suffix obtained by dropping characters,
where, when noDot is set, only characters other than a dot may be
dropped (the one-segment class). -/
def tryTails (k : List Char → Bool) (noDot : Bool) : List Char → Bool
  | [] => k []
  | c :: s => k (c :: s) || ((!noDot || !(c == '.')) && tryTails k noDot s)

/-- Anchored matching of a compiled pattern against a string: the standard
regular-expression semantics of the patterns built by
Token._transform_acl_to_regex, as decided by Python re.match against the
pattern anchored at both ends.  The whole input must be consumed; a literal
item consumes its character, the star item consumes any run of characters
other than a dot, the hash item consumes any run, and the alternation group
consumes either the two characters m, e or the interpolated auth id. -/
def reMatch : List RItem → List Char → Bool
  | [], s => s.isEmpty
  | RItem.lit c :: items, s =>
      match s with
      | [] => false
      | c2 :: s2 => c == c2 && reMatch items s2
  | RItem.star :: items, s => tryTails (fun v => reMatch items v) true s
  | RItem.hash :: items, s => tryTails (fun v => reMatch items v) false s
  | RItem.meAlt a :: items, s =>
      (List.isPrefixOf ['m', 'e'] s && reMatch items (s.drop 2)) ||
      (List.isPrefixOf a s && reMatch items (s.drop a.length))

/-- Declarative segment-wise conformance of a string to a compiled pattern,
following the specification: each literal item is matched by exactly its
character, each star item by some run of characters none of which is a dot,
each hash item by an arbitrary run (dots included), the alternation group by
the literal word me or by the auth id, and the string is consumed in full
(the pattern is anchored at both ends). -/
inductive Conforms : List RItem → List Char → Prop where
  | nil : Conforms [] []
  | lit (c : Char) (items : List RItem) (s : List Char) :
      Conforms items s → Conforms (RItem.lit c :: items) (c :: s)
  | star (u : List Char) (items : List RItem) (s : List Char) :
      (∀ c ∈ u, c ≠ '.') → Conforms items s →
      Conforms (RItem.star :: items) (u ++ s)
  | hash (u : List Char) (items : List RItem) (s : List Char) :
      Conforms items s → Conforms (RItem.hash :: items) (u ++ s)
  | meWord (a : List Char) (items : List RItem) (s : List Char) :
      Conforms items s → Conforms (RItem.meAlt a :: items) ('m' :: 'e' :: s)
  | meAuth (a : List Char) (items : List RItem) (s : List Char) :
      Conforms items s → Conforms (RItem.meAlt a :: items) (a ++ s)

/-- A tenant reference as attached to token metadata by
Manager._get_tenant_list: a one-key mapping holding a tenant uuid. -/
structure TenantRef where
  uuid : String
deriving DecidableEq

/-- The metadata mapping produced by the authentication backend and
enriched by Manager.new_token.  The keys wazo_auth/token.py reads or
writes are fields; every other backend-supplied key is kept in extra,
untouched by the manager. -/
structure Metadata where
  auth_id : List Char
  xivo_user_uuid : Option String
  xivo_uuid : String
  tenant_uuid : Option String
  tenants : List TenantRef
  extra : List (String × String)
deriving DecidableEq

/-- The Token value object of wazo_auth/token.py. -/
structure Token where
  token : String
  auth_id : List Char
  xivo_user_uuid : Option String
  xivo_uuid : String
  issued_t : Int
  expire_t : Option Int
  acls : List (List Char)
  metadata : Metadata
deriving DecidableEq

/-- Token.is_expired: the Python conjunction yields the falsy expire_t
itself when it is absent or zero (such a token never expires), and
otherwise compares the clock with it.  The current time is passed
explicitly. -/
def Token.is_expired (t : Token) (now : Int) : Bool :=
  match t.expire_t with
  | none => false
  | some e => !(e == 0) && decide (e < now)

/-- Token.matches_required_acl: a missing required permission always
matches; otherwise the loop over the granted templates returns true on
the first compiled pattern accepting the permission. -/
def Token.matches_required_acl (t : Token) (required_acl : Option (List Char)) :
    Bool :=
  match required_acl with
  | none => true
  | some r =>
      t.acls.any (fun user_acl => reMatch (transform_acl_to_regex t.auth_id user_acl) r)

/-- The errors Manager.get raises: UnknownTokenException and
MissingACLTokenException carrying the unmet permission. -/
inductive TokenError where
  | unknownToken
  | missingACL (required_acl : Option (List Char))
deriving DecidableEq

/-- A record of the token store as returned by dao.token.get: the token
fields together with the store-assigned uuid key. -/
structure StoredToken where
  uuid : String
  auth_id : List Char
  xivo_user_uuid : Option String
  xivo_uuid : String
  issued_t : Int
  expire_t : Option Int
  acls : List (List Char)
  metadata : Metadata
deriving DecidableEq

/-- Manager.get pops the uuid key of the fetched record and builds the
Token value from the rest. -/
def StoredToken.toToken (td : StoredToken) : Token :=
  { token := td.uuid, auth_id := td.auth_id, xivo_user_uuid := td.xivo_user_uuid,
    xivo_uuid := td.xivo_uuid, issued_t := td.issued_t, expire_t := td.expire_t,
    acls := td.acls, metadata := td.metadata }

/-- dao.token.get on the list-of-records model of the token store. -/
def storeGet (store : List StoredToken) (token_uuid : String) :
    Option StoredToken :=
  store.find? (fun td => td.uuid == token_uuid)

/-- Manager.get (wazo_auth/token.py): fetch the record, fail with
UnknownToken when it is absent, build the token, fail with UnknownToken
again when the token is expired, fail with MissingACL when the required
permission is not granted, and otherwise return the token.  The store is
threaded through unchanged: the source performs no write on this path, in
particular an expired token is not deleted by the lookup. -/
def Manager.get (store : List StoredToken) (now : Int) (token_uuid : String)
    (required_acl : Option (List Char)) :
    Except TokenError Token × List StoredToken :=
  match storeGet store token_uuid with
  | none => (Except.error TokenError.unknownToken, store)
  | some token_data =>
      let token := token_data.toToken
      if token.is_expired now then (Except.error TokenError.unknownToken, store)
      else if token.matches_required_acl required_acl then (Except.ok token, store)
      else (Except.error (TokenError.missingACL required_acl), store)

/-- The observable outcome of one sweeper tick: the warnings logged and
the delay of the timer armed for the next tick. -/
structure SweepOutcome where
  warnings : List String
  next_run_in : Option Int
deriving DecidableEq

/-- ExpiredTokenRemover._cleanup: dao.token.delete_expired_tokens is
attempted; any failure is caught and logged at warning level, nothing is
re-raised.  The collaborator call is modelled by its outcome. -/
def ExpiredTokenRemover.cleanup (delete_expired_tokens : Except String Unit) :
    List String :=
  match delete_expired_tokens with
  | Except.ok _ => []
  | Except.error _ => ["failed to remove expired tokens"]

/-- ExpiredTokenRemover._reschedule: arms a daemon timer that fires run
again after the given interval. -/
def ExpiredTokenRemover.reschedule (interval : Int) : Option Int :=
  some interval

/-- ExpiredTokenRemover.run: one tick of the sweeper loop; it cleans up
and then unconditionally reschedules itself at the configured interval.
The function is total in the collaborator outcome: no sweep failure
escapes to a caller. -/
def ExpiredTokenRemover.run (cleanup_interval : Int)
    (delete_expired_tokens : Except String Unit) : SweepOutcome :=
  { warnings := ExpiredTokenRemover.cleanup delete_expired_tokens,
    next_run_in := ExpiredTokenRemover.reschedule cleanup_interval }

/-- A concrete token used to instantiate the matcher theorems. -/
def sampleToken : Token :=
  { token := "tok-1", auth_id := "u1".data, xivo_user_uuid := none,
    xivo_uuid := "x", issued_t := 0, expire_t := some 100,
    acls := ["confd.*.read".data, "a.b.me".data], metadata :=
      { auth_id := "u1".data, xivo_user_uuid := none, xivo_uuid := "x",
        tenant_uuid := none, tenants := [], extra := [] } }

/-- The sample token with its acls listed in the reverse order. -/
def sampleTokenRev : Token :=
  { sampleToken with acls := ["a.b.me".data, "confd.*.read".data] }

/-- A stored record, expired at time 200, for the C2 witness. -/
def sampleRecord : StoredToken :=
  { uuid := "tok-1", auth_id := "u1".data, xivo_user_uuid := none,
    xivo_uuid := "x", issued_t := 0, expire_t := some 100,
    acls := ["confd.#".data], metadata :=
      { auth_id := "u1".data, xivo_user_uuid := none, xivo_uuid := "x",
        tenant_uuid := none, tenants := [], extra := [] } }

/-- A store holding one expired record for the C2 witness. -/
def sampleStore : List StoredToken := [sampleRecord]

/-- The args mapping Manager.new_token receives and mutates in place.  The
keys the manager reads or writes are fields; every other caller-supplied
key is kept in extra, untouched. -/
structure Args where
  backend : String
  expiration : Option Int
  acl_templates : List (List Char)
  metadata : Option Metadata
  extra : List (String × String)
deriving DecidableEq

/-- The authentication backend collaborator of Manager.new_token. -/
structure Backend where
  get_metadata : String → Args → Metadata
  get_acls : String → Args → List (List Char)

/-- The static configuration the Manager is constructed with:
config.get of backend_policies (a mapping from backend name to policy
name) and the default token lifetime. -/
structure ManagerConfig where
  backend_policies : String → Option String
  default_token_lifetime : Int

/-- A policy record as returned by dao.policy.get. -/
structure Policy where
  name : String
  acl_templates : List (List Char)
deriving DecidableEq

/-- The token payload passed to dao.token.create. -/
structure TokenPayload where
  auth_id : List Char
  xivo_user_uuid : Option String
  xivo_uuid : String
  expire_t : Option Int
  issued_t : Int
  acls : List (List Char)
  metadata : Metadata
deriving DecidableEq

/-- Manager._get_acl_templates: an absent (or falsy) configured
backend-to-policy mapping yields no templates; otherwise the source
returns the acl_templates of the first policy of the dao lookup by the
configured name (limit 1), and when that lookup is empty it logs the
unknown policy name and yields no templates.  The dao lookup is the
collaborator policy_get. -/
def Manager.get_acl_templates (cfg : ManagerConfig)
    (policy_get : String → List Policy) (backend_name : String) :
    List (List Char) :=
  match cfg.backend_policies backend_name with
  | none => []
  | some policy_name =>
      if policy_name = "" then []
      else
        match policy_get policy_name with
        | [] => []
        | policy :: _ => policy.acl_templates

/-- Manager._get_tenant_list: a falsy tenant uuid yields no tenants;
otherwise every uuid listed by the tenant tree for it, each wrapped as a
one-key mapping. -/
def Manager.get_tenant_list (list_nodes : String → List String)
    (tenant_uuid : Option String) : List TenantRef :=
  match tenant_uuid with
  | none => []
  | some u => if u = "" then [] else (list_nodes u).map (fun x => { uuid := x })

/-- Manager.new_token: ask the backend for metadata, enrich it with the
resolved tenants, overwrite the acl_templates and metadata keys of the
args of the caller, ask the backend for the acls (with the mutated args),
compute the expiry window and persist the payload; the store assigns the
token id.  The dao create call is modelled by the id it returns,
time.time() by now, and the tenant tree by its list_nodes query; the
mutated args mapping is returned alongside the token.  The source guards
the acls with an or-empty fallback, which on the list model is the
identity. -/
def Manager.new_token (cfg : ManagerConfig)
    (policy_get : String → List Policy) (list_nodes : String → List String)
    (create : TokenPayload → String) (now : Int) (backend : Backend)
    (login : String) (args : Args) : Token × Args :=
  let metadata0 := backend.get_metadata login args
  let metadata := { metadata0 with
    tenants := Manager.get_tenant_list list_nodes metadata0.tenant_uuid }
  let args2 := { args with
    acl_templates := Manager.get_acl_templates cfg policy_get args.backend,
    metadata := some metadata }
  let acls := backend.get_acls login args2
  let expiration :=
    match args2.expiration with
    | none => cfg.default_token_lifetime
    | some e => e
  let token_payload : TokenPayload :=
    { auth_id := metadata.auth_id, xivo_user_uuid := metadata.xivo_user_uuid,
      xivo_uuid := metadata.xivo_uuid, expire_t := some (now + expiration),
      issued_t := now, acls := acls, metadata := metadata }
  let token_uuid := create token_payload
  ({ token := token_uuid, auth_id := token_payload.auth_id,
     xivo_user_uuid := token_payload.xivo_user_uuid,
     xivo_uuid := token_payload.xivo_uuid,
     issued_t := token_payload.issued_t, expire_t := token_payload.expire_t,
     acls := token_payload.acls, metadata := token_payload.metadata }, args2)

/-- A concrete backend for the new_token witnesses: the supplied metadata
carries tenant uuid t1. -/
def witnessBackend : Backend :=
  { get_metadata := fun _ _ =>
      { auth_id := "u1".data, xivo_user_uuid := none, xivo_uuid := "x",
        tenant_uuid := some ("t1"), tenants := [], extra := [] },
    get_acls := fun _ _ => ["#".data] }

/-- Concrete args for the new_token witnesses. -/
def witnessArgs : Args :=
  { backend := "xivo_user", expiration := none,
    acl_templates := ["caller.supplied".data], metadata := none, extra := [] }

/-- A concrete configuration without any backend-to-policy mapping. -/
def witnessCfg : ManagerConfig :=
  { backend_policies := fun _ => none, default_token_lifetime := 3600 }

/-- A configuration mapping the xivo_user backend to the admin policy. -/
def witnessCfgPolicy : ManagerConfig :=
  { backend_policies := fun b => if b = "xivo_user" then some ("admin") else none,
    default_token_lifetime := 3600 }

/-- The admin policy returned by the dao lookup in the C9 witness. -/
def witnessPolicy : Policy := { name := "admin", acl_templates := ["#".data] }

/-- Modelled from the spec: the newer-variant Expiry Sweeper correlates
the sessions deleted by the bulk-expiry operation with the tokens of the
just-deleted batch (spec sections 4.4 and 4.5); that variant of the
sweeper is not among the sources here (the ExpiredTokenRemover present
only deletes expired tokens).  A token of the deleted batch carries its
optional session link, its principal id and the tenant uuid derived from
its metadata. -/
structure SweptToken where
  session_uuid : Option String
  auth_id : String
  metadata_tenant_uuid : Option String
deriving DecidableEq

/-- Modelled from the spec: the session-deleted event published on the
bus, carrying the session uuid with the correlated user and tenant
fields, and the flag recording the warning logged when no token of the
batch correlates. -/
structure SessionDeletedEvent where
  session_uuid : String
  user_uuid : Option String
  tenant_uuid : Option String
  warned : Bool
deriving DecidableEq

/-- Modelled from the spec: the notification built for one deleted
session: locate a token of the just-deleted batch whose session link
matches; on success the event carries the principal and tenant of it,
otherwise a warning is logged and the event is still emitted, with empty
user and tenant fields. -/
def sessionDeletedEvent (batch : List SweptToken) (session_uuid : String) :
    SessionDeletedEvent :=
  match batch.find? (fun t => t.session_uuid == some session_uuid) with
  | some tok =>
      { session_uuid := session_uuid, user_uuid := some tok.auth_id,
        tenant_uuid := tok.metadata_tenant_uuid, warned := false }
  | none =>
      { session_uuid := session_uuid, user_uuid := none, tenant_uuid := none,
        warned := true }

/-- Modelled from the spec: the success path of one sweep publishes the
events for all sessions the bulk-expiry operation actually deleted, in
order, one per session. -/
def sweepPublish (batch : List SweptToken) (deleted_sessions : List String) :
    List SessionDeletedEvent :=
  deleted_sessions.map (sessionDeletedEvent batch)

/-- The one swept token of the C4 witness, linked to session s1. -/
def witnessSweptToken : SweptToken :=
  { session_uuid := some ("s1"), auth_id := "u1",
    metadata_tenant_uuid := some ("t1") }

/-- The event the C4 witness expects for the correlated session s1. -/
def witnessEventS1 : SessionDeletedEvent :=
  { session_uuid := "s1", user_uuid := some ("u1"), tenant_uuid := some ("t1"),
    warned := false }

/-- The event the C4 witness expects for the uncorrelated session s2. -/
def witnessEventS2 : SessionDeletedEvent :=
  { session_uuid := "s2", user_uuid := none, tenant_uuid := none,
    warned := true }

/-- A tenant record of the flat listing supplied by the tenant dao: a
uuid, a display name, and the parent uuid (the root tenant is
self-referential). -/
structure TenantRecord where
  uuid : String
  name : String
  parent_uuid : String
deriving DecidableEq

/-- Modelled from the spec: wazo_auth.services.helpers.TenantTree is not
among the sources here (only its unit test is).  Per spec section 4.2
the tree is a parent-to-children adjacency built by one pass over the
flat listing; a child edge links a parent uuid to every tenant carrying
it as parent_uuid, except the self-referential edge of the root. -/
def tenantChildren (tenants : List TenantRecord) (p : String) : List String :=
  (tenants.filter
    (fun t => t.parent_uuid == p && !(t.uuid == t.parent_uuid))).map
    (fun t => t.uuid)

/-- Modelled from the spec: one round of the breadth-first traversal:
keep every reached uuid and add every child of a reached uuid. -/
def expandStep (tenants : List TenantRecord) (acc : List String) :
    List String :=
  (acc ++ acc.flatMap (tenantChildren tenants)).dedup

/-- Modelled from the spec: list_nodes returns the root uuid plus every
uuid transitively parented under it; the traversal round is run as many
times as there are tenants, which saturates the reachable set. -/
def TenantTree.list_nodes (tenants : List TenantRecord) (root : String) :
    List String :=
  Nat.iterate (expandStep tenants) tenants.length [root]

/-- The inclusive descendant relation of a flat tenant listing: a uuid
reached from the root by following zero or more child edges of the
listing (the self-referential root edge is not a child edge).  This is
the inclusive descendant closure of the specification. -/
inductive TenantDescendant (tenants : List TenantRecord) :
    String → String → Prop where
  | refl (u : String) : TenantDescendant tenants u u
  | child (r : String) (t : TenantRecord) :
      TenantDescendant tenants r t.parent_uuid → t ∈ tenants →
      t.uuid ≠ t.parent_uuid → TenantDescendant tenants r t.uuid

/-- The uuid universe the traversal stays inside: the root plus the
listed uuids. -/
def tenantUniverse (tenants : List TenantRecord) (root : String) :
    Finset String :=
  insert root (tenants.map (fun t => t.uuid)).toFinset

/-- The example tenant listing of the unit test
(wazo_auth/services/tests/test_helpers.py): top is the self-referential
root with children a, e and h; a has children b and d; b has children c
and g; e has child f.  The random uuids of the test are replaced by the
tenant names, which preserves the structure. -/
def exampleTenants : List TenantRecord :=
  [{ uuid := "top", name := "top", parent_uuid := "top" },
   { uuid := "a", name := "a", parent_uuid := "top" },
   { uuid := "b", name := "b", parent_uuid := "a" },
   { uuid := "c", name := "c", parent_uuid := "b" },
   { uuid := "d", name := "d", parent_uuid := "a" },
   { uuid := "e", name := "e", parent_uuid := "top" },
   { uuid := "f", name := "f", parent_uuid := "e" },
   { uuid := "g", name := "g", parent_uuid := "b" },
   { uuid := "h", name := "h", parent_uuid := "top" }]

/-- The backtracking helper succeeds exactly when the input splits into a
dropped run (dot-free when noDot is set) followed by a suffix accepted by
the continuation. -/
theorem tryTails_true_iff (k : List Char → Bool) (noDot : Bool) (s : List Char) :
    tryTails k noDot s = true ↔
      ∃ u v, s = u ++ v ∧ (noDot = true → ∀ c ∈ u, c ≠ '.') ∧ k v = true := by
  induction s with
  | nil =>
    simp only [tryTails]
    constructor
    · intro h
      refine ⟨[], [], rfl, ?_, h⟩
      intro _ c hc
      cases hc
    · rintro ⟨u, v, huv, _, hk⟩
      obtain ⟨hu, hv⟩ := List.append_eq_nil.mp huv.symm
      subst hv
      exact hk
  | cons c s ih =>
    simp only [tryTails, Bool.or_eq_true, Bool.and_eq_true]
    constructor
    · rintro (h | ⟨hcond, htail⟩)
      · refine ⟨[], c :: s, rfl, ?_, h⟩
        intro _ d hd
        cases hd
      · obtain ⟨u, v, huv, hdot, hk⟩ := ih.mp htail
        refine ⟨c :: u, v, by rw [huv, List.cons_append], ?_, hk⟩
        intro hnd d hd
        rcases List.mem_cons.mp hd with h1 | h2
        · subst h1
          rw [hnd] at hcond
          simpa using hcond
        · exact hdot hnd d h2
    · rintro ⟨u, v, huv, hdot, hk⟩
      cases u with
      | nil =>
        left
        rw [List.nil_append] at huv
        rw [huv]
        exact hk
      | cons d u2 =>
        rw [List.cons_append] at huv
        injection huv with h1 h2
        right
        constructor
        · cases noDot with
          | false => simp
          | true =>
            have hd : d ≠ '.' := hdot rfl d (List.mem_cons_self d u2)
            subst h1
            simp [hd]
        · exact ih.mpr ⟨u2, v, h2, fun hnd e he => hdot hnd e (List.mem_cons_of_mem d he), hk⟩

/-- The executable anchored matcher agrees with the declarative segment-wise
conformance relation: a compiled pattern accepts a string exactly when the
string decomposes item by item, with star items consuming only dot-free
runs, hash items consuming arbitrary runs, the alternation group consuming
the word me or the auth id, and the whole string consumed. -/
theorem reMatch_eq_true_iff_conforms (items : List RItem) (s : List Char) :
    reMatch items s = true ↔ Conforms items s := by
  induction items generalizing s with
  | nil =>
    simp only [reMatch, List.isEmpty_iff]
    constructor
    · rintro rfl
      exact Conforms.nil
    · intro h
      cases h
      rfl
  | cons i items ih =>
    cases i with
    | lit c =>
      cases s with
      | nil =>
        simp only [reMatch]
        constructor
        · intro h
          cases h
        · intro h
          cases h
      | cons c2 s2 =>
        simp only [reMatch, Bool.and_eq_true, beq_iff_eq]
        constructor
        · rintro ⟨rfl, h⟩
          exact Conforms.lit c items s2 ((ih _).mp h)
        · intro h
          cases h with
          | lit _ _ _ hc => exact ⟨rfl, (ih _).mpr hc⟩
    | star =>
      simp only [reMatch]
      rw [tryTails_true_iff]
      constructor
      · rintro ⟨u, v, rfl, hdot, hk⟩
        exact Conforms.star u items v (hdot rfl) ((ih _).mp hk)
      · intro h
        cases h with
        | star u _ s2 hdu hcf => exact ⟨u, s2, rfl, fun _ => hdu, (ih _).mpr hcf⟩
    | hash =>
      simp only [reMatch]
      rw [tryTails_true_iff]
      constructor
      · rintro ⟨u, v, rfl, _, hk⟩
        exact Conforms.hash u items v ((ih _).mp hk)
      · intro h
        cases h with
        | hash u _ s2 hcf =>
          refine ⟨u, s2, rfl, ?_, (ih _).mpr hcf⟩
          intro hfalse
          exact absurd hfalse (by decide)
    | meAlt a =>
      simp only [reMatch, Bool.or_eq_true, Bool.and_eq_true, List.isPrefixOf_iff_prefix]
      constructor
      · rintro (⟨hp, hm⟩ | ⟨hp, hm⟩)
        · obtain ⟨t, ht⟩ := hp
          subst ht
          exact Conforms.meWord a items t ((ih _).mp (by simpa using hm))
        · obtain ⟨t, ht⟩ := hp
          subst ht
          rw [List.drop_left] at hm
          exact Conforms.meAuth a items t ((ih _).mp hm)
      · intro h
        cases h with
        | meWord _ _ s2 hc =>
          left
          exact ⟨⟨s2, rfl⟩, by simpa using (ih _).mpr hc⟩
        | meAuth _ _ s2 hc =>
          right
          refine ⟨List.prefix_append a s2, ?_⟩
          rw [List.drop_left]
          exact (ih _).mpr hc

/-- C1: for every token and every ACL template among its granted acls, the
compiled pattern accepts a requested permission exactly when the whole
permission conforms to the template segment-wise: each star consumes a run
of characters none of which is a dot (it never crosses a segment
boundary), each hash consumes the remainder run including dots, the
me-alternation consumes the word me or the principal id, and the pattern
is anchored at both ends (the whole string must be consumed). -/
theorem acl_template_match_iff_segmentwise (t : Token) (user_acl : List Char)
    (hmem : user_acl ∈ t.acls) (required : List Char) :
    reMatch (transform_acl_to_regex t.auth_id user_acl) required = true ↔
      Conforms (transform_acl_to_regex t.auth_id user_acl) required :=
  reMatch_eq_true_iff_conforms _ _

/-- Witness for C1: the template confd.*.read of the sample token accepts
confd.users.read, and by the theorem that acceptance is a segment-wise
conformance. -/
theorem acl_template_match_iff_segmentwise_witness :
    Conforms (transform_acl_to_regex sampleToken.auth_id ("confd.*.read").data)
      "confd.users.read".data :=
  (acl_template_match_iff_segmentwise sampleToken ("confd.*.read").data
    (by decide) "confd.users.read".data).mp (by decide)

/-- C8: a missing required permission always matches; a present one
matches exactly when some granted template accepts it, and therefore the
boolean result is invariant under any permutation of the acls sequence
(the first-match short-circuit of the source loop never changes the
result). -/
theorem matches_required_acl_none_exists_and_perm (t t2 : Token)
    (r : List Char) :
    t.matches_required_acl none = true ∧
    (t.matches_required_acl (some r) = true ↔
      ∃ user_acl ∈ t.acls,
        reMatch (transform_acl_to_regex t.auth_id user_acl) r = true) ∧
    (t.acls.Perm t2.acls → t.auth_id = t2.auth_id →
      t.matches_required_acl (some r) = t2.matches_required_acl (some r)) := by
  refine ⟨rfl, ?_, ?_⟩
  · simp [Token.matches_required_acl, List.any_eq_true]
  · intro hperm hauth
    simp only [Token.matches_required_acl]
    rw [Bool.eq_iff_iff]
    simp only [List.any_eq_true, hauth]
    constructor
    · rintro ⟨a, ha, hm⟩
      exact ⟨a, hperm.mem_iff.mp ha, hm⟩
    · rintro ⟨a, ha, hm⟩
      exact ⟨a, hperm.mem_iff.mpr ha, hm⟩

/-- Witness for C8: on the sample token, permuting the two granted
templates leaves the result of matching confd.users.read unchanged. -/
theorem matches_required_acl_none_exists_and_perm_witness :
    sampleToken.matches_required_acl (some ("confd.users.read").data) =
      sampleTokenRev.matches_required_acl (some ("confd.users.read").data) :=
  (matches_required_acl_none_exists_and_perm sampleToken sampleTokenRev
    "confd.users.read".data).2.2 (by decide) rfl

/-- The compiled form of the template a.b.me: four literal items followed
by the me-or-principal alternation (the trailing me replacement of
Token._transform_acl_me_to_uuid_or_me). -/
theorem transform_abme (authId : List Char) :
    transform_acl_to_regex authId ("a.b.me").data =
      [RItem.lit 'a', RItem.lit '.', RItem.lit 'b', RItem.lit '.',
       RItem.meAlt authId] := rfl

/-- C3: a token whose granted template is a.b.me matches the permission
a.b. followed by its own auth id, and fails to match a.b. followed by any
other principal (anything other than the literal word me and the own
auth id). -/
theorem trailing_me_matches_own_principal_only (t : Token) (other : List Char)
    (hacls : t.acls = ["a.b.me".data])
    (hne_me : other ≠ ['m', 'e']) (hne_auth : other ≠ t.auth_id) :
    t.matches_required_acl (some ("a.b.".data ++ t.auth_id)) = true ∧
    t.matches_required_acl (some ("a.b.".data ++ other)) = false := by
  constructor
  · simp only [Token.matches_required_acl, hacls, List.any_cons, List.any_nil,
      Bool.or_false, transform_abme]
    rw [reMatch_eq_true_iff_conforms]
    show Conforms _ ('a' :: '.' :: 'b' :: '.' :: t.auth_id)
    refine Conforms.lit _ _ _ (Conforms.lit _ _ _ (Conforms.lit _ _ _
      (Conforms.lit _ _ _ ?_)))
    have h0 := Conforms.meAuth t.auth_id [] [] Conforms.nil
    rwa [List.append_nil] at h0
  · simp only [Token.matches_required_acl, hacls, List.any_cons, List.any_nil,
      Bool.or_false, transform_abme]
    rw [Bool.eq_false_iff]
    intro hmatch
    rw [reMatch_eq_true_iff_conforms] at hmatch
    have hshape : Conforms [RItem.meAlt t.auth_id] other := by
      cases hmatch with
      | lit _ _ _ h1 =>
        cases h1 with
        | lit _ _ _ h2 =>
          cases h2 with
          | lit _ _ _ h3 =>
            cases h3 with
            | lit _ _ _ h4 => exact h4
    cases hshape with
    | meWord _ _ s2 h5 =>
      cases h5
      exact hne_me rfl
    | meAuth _ _ s2 h5 =>
      cases h5
      exact hne_auth (List.append_nil _)

/-- Witness for C3: the sample token (auth id u1, template a.b.me among
its acls restricted to that template) accepts a.b.u1 and rejects
a.b.u2. -/
theorem trailing_me_matches_own_principal_only_witness :
    ({ sampleToken with acls := ["a.b.me".data] } :
        Token).matches_required_acl (some ("a.b.".data ++ "u1".data)) = true ∧
    ({ sampleToken with acls := ["a.b.me".data] } :
        Token).matches_required_acl (some ("a.b.".data ++ "u2".data)) = false :=
  trailing_me_matches_own_principal_only _ ("u2").data rfl (by decide) (by decide)

/-- C2: Manager.get leaves the store untouched (in particular an expired
token is not deleted by the lookup), raises UnknownToken exactly when the
token is absent or expired at lookup time, raises MissingACL exactly when
the token is present and unexpired but no granted template matches the
required permission, and otherwise returns the stored token. -/
theorem manager_get_characterization (store : List StoredToken) (now : Int)
    (token_uuid : String) (required_acl : Option (List Char)) :
    ((Manager.get store now token_uuid required_acl).2 = store) ∧
    ((Manager.get store now token_uuid required_acl).1 =
        Except.error TokenError.unknownToken ↔
      storeGet store token_uuid = none ∨
        ∃ td, storeGet store token_uuid = some td ∧
          td.toToken.is_expired now = true) ∧
    ((Manager.get store now token_uuid required_acl).1 =
        Except.error (TokenError.missingACL required_acl) ↔
      ∃ td, storeGet store token_uuid = some td ∧
        td.toToken.is_expired now = false ∧
        td.toToken.matches_required_acl required_acl = false) ∧
    (∀ tok : Token, (Manager.get store now token_uuid required_acl).1 =
        Except.ok tok ↔
      ∃ td, storeGet store token_uuid = some td ∧ tok = td.toToken ∧
        td.toToken.is_expired now = false ∧
        td.toToken.matches_required_acl required_acl = true) := by
  rcases hfound : storeGet store token_uuid with _ | td
  · refine ⟨?_, ?_, ?_, ?_⟩ <;> simp [Manager.get, hfound]
  · rcases hexp : td.toToken.is_expired now with _ | _
    · rcases hacl : td.toToken.matches_required_acl required_acl with _ | _
      · refine ⟨?_, ?_, ?_, ?_⟩ <;> simp [Manager.get, hfound, hexp, hacl]
      · refine ⟨?_, ?_, ?_, ?_⟩
        · simp [Manager.get, hfound, hexp, hacl]
        · simp [Manager.get, hfound, hexp, hacl]
        · simp [Manager.get, hfound, hexp, hacl]
        · intro tok
          simp [Manager.get, hfound, hexp, hacl]
          constructor
          · intro h
            exact h.symm
          · intro h
            exact h.symm
    · refine ⟨?_, ?_, ?_, ?_⟩ <;> simp [Manager.get, hfound, hexp]

/-- Witness for C2: looking the expired sample record up at time 200
raises UnknownToken and leaves the store unchanged. -/
theorem manager_get_characterization_witness :
    (Manager.get sampleStore 200 ("tok-1") none).2 = sampleStore ∧
    (Manager.get sampleStore 200 ("tok-1") none).1 =
      Except.error TokenError.unknownToken :=
  ⟨(manager_get_characterization sampleStore 200 ("tok-1") none).1,
   ((manager_get_characterization sampleStore 200 ("tok-1") none).2.1).mpr
     (Or.inr ⟨sampleRecord, by decide, by decide⟩)⟩

/-- C5: one sweeper tick is total in the outcome of the bulk delete: a
failure is swallowed (it surfaces only as the logged warning, which is
present exactly on the failure path), and the next tick is rescheduled at
the configured interval on the success and on the failure path alike, so
the sweep loop never terminates because a sweep failed. -/
theorem sweeper_reschedules_and_swallows (cleanup_interval : Int)
    (delete_result : Except String Unit) :
    (ExpiredTokenRemover.run cleanup_interval delete_result).next_run_in =
      some cleanup_interval ∧
    ((ExpiredTokenRemover.run cleanup_interval delete_result).warnings ≠ [] ↔
      ∃ e, delete_result = Except.error e) := by
  refine ⟨rfl, ?_⟩
  cases delete_result with
  | ok u => simp [ExpiredTokenRemover.run, ExpiredTokenRemover.cleanup]
  | error e => simp [ExpiredTokenRemover.run, ExpiredTokenRemover.cleanup]

/-- C7: the metadata of every token new_token returns carries a tenants
entry equal to the tenant-tree closure of the backend-supplied tenant
uuid, each uuid wrapped as a one-key mapping, when that uuid is present
and truthy, and equal to the empty list otherwise. -/
theorem new_token_resolves_tenants (cfg : ManagerConfig)
    (policy_get : String → List Policy) (list_nodes : String → List String)
    (create : TokenPayload → String) (now : Int) (backend : Backend)
    (login : String) (args : Args) :
    ((backend.get_metadata login args).tenant_uuid = none ∨
        (backend.get_metadata login args).tenant_uuid = some ("") →
      (Manager.new_token cfg policy_get list_nodes create now backend login
        args).1.metadata.tenants = []) ∧
    (∀ u, (backend.get_metadata login args).tenant_uuid = some u → u ≠ "" →
      (Manager.new_token cfg policy_get list_nodes create now backend login
        args).1.metadata.tenants =
        (list_nodes u).map (fun x => ({ uuid := x } : TenantRef))) := by
  constructor
  · rintro (h | h) <;>
      simp [Manager.new_token, Manager.get_tenant_list, h]
  · intro u hu hne
    simp [Manager.new_token, Manager.get_tenant_list, hu, hne]

/-- Witness for C7: with a tenant tree answering t1, t2 for t1, the token
minted for the sample backend carries exactly those two wrapped uuids. -/
theorem new_token_resolves_tenants_witness :
    (Manager.new_token witnessCfg (fun _ => []) (fun u => [u, "t2"])
      (fun _ => "tok-new") 50 witnessBackend ("alice") witnessArgs).1.metadata.tenants =
      [{ uuid := "t1" }, { uuid := "t2" }] :=
  (new_token_resolves_tenants witnessCfg (fun _ => []) (fun u => [u, "t2"])
    (fun _ => "tok-new") 50 witnessBackend ("alice") witnessArgs).2 ("t1") rfl
    (by decide)

/-- C9: the ACL templates new_token places into the args mapping are
exactly the backend-policy lookup result: the empty list when no mapping
is configured for the backend name, the acl_templates of the first policy
found under the configured name when the lookup succeeds, and the empty
list (logged, non-fatally: the lookup is total and issuance proceeds)
when the configured name matches no policy. -/
theorem backend_policy_acl_templates (cfg : ManagerConfig)
    (policy_get : String → List Policy) (list_nodes : String → List String)
    (create : TokenPayload → String) (now : Int) (backend : Backend)
    (login : String) (args : Args) :
    ((Manager.new_token cfg policy_get list_nodes create now backend login
        args).2.acl_templates =
      Manager.get_acl_templates cfg policy_get args.backend) ∧
    (cfg.backend_policies args.backend = none →
      Manager.get_acl_templates cfg policy_get args.backend = []) ∧
    (∀ policy_name, cfg.backend_policies args.backend = some policy_name →
      policy_name ≠ "" →
      (policy_get policy_name = [] →
        Manager.get_acl_templates cfg policy_get args.backend = []) ∧
      (∀ policy rest, policy_get policy_name = policy :: rest →
        Manager.get_acl_templates cfg policy_get args.backend =
          policy.acl_templates)) := by
  refine ⟨rfl, ?_, ?_⟩
  · intro h
    simp [Manager.get_acl_templates, h]
  · intro policy_name hconf hne
    constructor
    · intro h
      simp [Manager.get_acl_templates, hconf, hne, h]
    · intro policy rest h
      simp [Manager.get_acl_templates, hconf, hne, h]

/-- Witness for C9: under the configured mapping the first found policy
supplies the template set. -/
theorem backend_policy_acl_templates_witness :
    Manager.get_acl_templates witnessCfgPolicy
      (fun n => if n = "admin" then [witnessPolicy] else []) "xivo_user" =
      witnessPolicy.acl_templates :=
  ((backend_policy_acl_templates witnessCfgPolicy
      (fun n => if n = "admin" then [witnessPolicy] else [])
      (fun _ => []) (fun _ => "tok-new") 50 witnessBackend ("alice")
      witnessArgs).2.2 ("admin") (by decide) (by decide)).2 witnessPolicy []
    (by decide)

/-- C10: new_token mutates the args mapping of the caller: acl_templates is
overwritten with the backend-policy lookup result (whatever the caller
supplied, and also when no mapping is configured), metadata is set to the
resolved metadata, and every other key (backend, expiration, and the
untouched remainder) is unchanged. -/
theorem new_token_mutates_args (cfg : ManagerConfig)
    (policy_get : String → List Policy) (list_nodes : String → List String)
    (create : TokenPayload → String) (now : Int) (backend : Backend)
    (login : String) (args : Args) :
    ((Manager.new_token cfg policy_get list_nodes create now backend login
        args).2.acl_templates =
      Manager.get_acl_templates cfg policy_get args.backend) ∧
    ((Manager.new_token cfg policy_get list_nodes create now backend login
        args).2.metadata =
      some { backend.get_metadata login args with
        tenants := Manager.get_tenant_list list_nodes
          (backend.get_metadata login args).tenant_uuid }) ∧
    ((Manager.new_token cfg policy_get list_nodes create now backend login
        args).2.backend = args.backend) ∧
    ((Manager.new_token cfg policy_get list_nodes create now backend login
        args).2.expiration = args.expiration) ∧
    ((Manager.new_token cfg policy_get list_nodes create now backend login
        args).2.extra = args.extra) :=
  ⟨rfl, rfl, rfl, rfl, rfl⟩

/-- The event built for a session always carries the uuid of it. -/
theorem sessionDeletedEvent_uuid (batch : List SweptToken) (s : String) :
    (sessionDeletedEvent batch s).session_uuid = s := by
  unfold sessionDeletedEvent
  cases batch.find? (fun t => t.session_uuid == some s) <;> rfl

/-- C4: on a successful sweep, exactly one session-deleted event is
published per session actually deleted (sessions deleted in one batch are
distinct): the published list contains exactly one event carrying the
uuid of the session, that event is the one built for the session, and it
carries the user and tenant fields of the correlated token when one of the
deleted batch matches the session, and empty user and tenant fields plus
the logged warning when none does; the notification of no deleted session is
skipped. -/
theorem sweep_emits_exactly_once_per_session (batch : List SweptToken)
    (deleted_sessions : List String) (hnd : deleted_sessions.Nodup)
    (s : String) (hs : s ∈ deleted_sessions) :
    ((sweepPublish batch deleted_sessions).filter
        (fun e => e.session_uuid == s)).length = 1 ∧
    sessionDeletedEvent batch s ∈ sweepPublish batch deleted_sessions ∧
    ((∃ tok, batch.find? (fun t => t.session_uuid == some s) = some tok ∧
        sessionDeletedEvent batch s =
          { session_uuid := s, user_uuid := some tok.auth_id,
            tenant_uuid := tok.metadata_tenant_uuid, warned := false }) ∨
      (batch.find? (fun t => t.session_uuid == some s) = none ∧
        sessionDeletedEvent batch s =
          { session_uuid := s, user_uuid := none, tenant_uuid := none,
            warned := true })) := by
  refine ⟨?_, ?_, ?_⟩
  · rw [sweepPublish, List.filter_map, List.length_map]
    have hp : (fun e => e.session_uuid == s) ∘ sessionDeletedEvent batch =
        fun x => x == s := by
      funext x
      simp [Function.comp, sessionDeletedEvent_uuid]
    rw [hp]
    have hc : (List.filter (fun x => x == s) deleted_sessions).length =
        List.count s deleted_sessions := by
      rw [List.count, List.countP_eq_length_filter]
    rw [hc]
    exact List.count_eq_one_of_mem hnd hs
  · exact List.mem_map.mpr ⟨s, hs, rfl⟩
  · cases hfind : batch.find? (fun t => t.session_uuid == some s) with
    | some tok =>
      left
      exact ⟨tok, rfl, by simp [sessionDeletedEvent, hfind]⟩
    | none =>
      right
      exact ⟨rfl, by simp [sessionDeletedEvent, hfind]⟩

/-- Witness for C4: a batch with one token linked to session s1, swept
together with the uncorrelated session s2: exactly one event for s1
(carrying the principal and tenant of the token) and one warned event for s2
with empty fields, and the theorem instantiated at s1. -/
theorem sweep_emits_exactly_once_per_session_witness :
    ((sweepPublish [witnessSweptToken] ["s1", "s2"]).filter
        (fun e => e.session_uuid == "s1")).length = 1 ∧
    sweepPublish [witnessSweptToken] ["s1", "s2"] =
      [witnessEventS1, witnessEventS2] :=
  ⟨(sweep_emits_exactly_once_per_session [witnessSweptToken] ["s1", "s2"]
      (by decide) "s1" (by decide)).1, by decide⟩

/-- Membership in the adjacency of one parent. -/
theorem mem_tenantChildren (tenants : List TenantRecord) (p x : String) :
    x ∈ tenantChildren tenants p ↔
      ∃ t, t ∈ tenants ∧ t.parent_uuid = p ∧ t.uuid ≠ t.parent_uuid ∧
        t.uuid = x := by
  simp only [tenantChildren, List.mem_map, List.mem_filter,
    Bool.and_eq_true, beq_iff_eq, Bool.not_eq_true', beq_eq_false_iff_ne]
  tauto

/-- Membership in one traversal round: a kept uuid or a child of a kept
uuid. -/
theorem mem_expandStep (tenants : List TenantRecord) (acc : List String)
    (x : String) :
    x ∈ expandStep tenants acc ↔
      x ∈ acc ∨ ∃ y ∈ acc, x ∈ tenantChildren tenants y := by
  simp [expandStep, List.mem_dedup, List.mem_append, List.mem_flatMap]

/-- A traversal round keeps everything already reached. -/
theorem subset_expandStep (tenants : List TenantRecord) (acc : List String) :
    acc ⊆ expandStep tenants acc := by
  intro x hx
  exact (mem_expandStep tenants acc x).mpr (Or.inl hx)

/-- The members of a traversal round depend only on the members of its
input. -/
theorem expandStep_mem_congr (tenants : List TenantRecord)
    (a b : List String) (h : ∀ x, x ∈ a ↔ x ∈ b) (x : String) :
    x ∈ expandStep tenants a ↔ x ∈ expandStep tenants b := by
  rw [mem_expandStep, mem_expandStep]
  constructor
  · rintro (hx | ⟨y, hy, hc⟩)
    · exact Or.inl ((h x).mp hx)
    · exact Or.inr ⟨y, (h y).mp hy, hc⟩
  · rintro (hx | ⟨y, hy, hc⟩)
    · exact Or.inl ((h x).mpr hx)
    · exact Or.inr ⟨y, (h y).mpr hy, hc⟩

/-- Every uuid reached by the traversal is a declarative inclusive
descendant of the root. -/
theorem iterate_expandStep_sound (tenants : List TenantRecord)
    (root : String) (k : Nat) :
    ∀ x ∈ Nat.iterate (expandStep tenants) k [root],
      TenantDescendant tenants root x := by
  induction k with
  | zero =>
    intro x hx
    rw [Function.iterate_zero_apply, List.mem_singleton] at hx
    subst hx
    exact TenantDescendant.refl x
  | succ k ih =>
    rw [Function.iterate_succ_apply']
    intro x hx
    rcases (mem_expandStep tenants _ x).mp hx with hx2 | ⟨y, hy, hc⟩
    · exact ih x hx2
    · obtain ⟨t, ht, hpar, hne, huuid⟩ := (mem_tenantChildren tenants y x).mp hc
      subst huuid
      refine TenantDescendant.child root t ?_ ht hne
      rw [hpar]
      exact ih y hy

/-- Every traversal round stays inside the uuid universe. -/
theorem iterate_expandStep_subset_universe (tenants : List TenantRecord)
    (root : String) (k : Nat) :
    (Nat.iterate (expandStep tenants) k [root]).toFinset ⊆
      tenantUniverse tenants root := by
  induction k with
  | zero =>
    intro x hx
    rw [Function.iterate_zero_apply] at hx
    rw [List.mem_toFinset, List.mem_singleton] at hx
    subst hx
    exact Finset.mem_insert_self x _
  | succ k ih =>
    intro x hx
    rw [Function.iterate_succ_apply'] at hx
    rw [List.mem_toFinset, mem_expandStep] at hx
    rcases hx with hx2 | ⟨y, hy, hc⟩
    · exact ih (List.mem_toFinset.mpr hx2)
    · obtain ⟨t, ht, _, _, huuid⟩ := (mem_tenantChildren tenants y x).mp hc
      subst huuid
      exact Finset.mem_insert_of_mem
        (List.mem_toFinset.mpr (List.mem_map.mpr ⟨t, ht, rfl⟩))

/-- The uuid universe has at most one more element than the listing. -/
theorem card_tenantUniverse_le (tenants : List TenantRecord) (root : String) :
    (tenantUniverse tenants root).card ≤ tenants.length + 1 := by
  rw [tenantUniverse]
  have h1 := Finset.card_insert_le root (tenants.map (fun t => t.uuid)).toFinset
  have h2 := List.toFinset_card_le (tenants.map (fun t => t.uuid))
  rw [List.length_map] at h2
  omega

/-- A traversal round reaches at least everything of the previous one. -/
theorem iterate_expandStep_subset_succ (tenants : List TenantRecord)
    (root : String) (k : Nat) :
    ∀ x ∈ Nat.iterate (expandStep tenants) k [root],
      x ∈ Nat.iterate (expandStep tenants) (k + 1) [root] := by
  intro x hx
  rw [Function.iterate_succ_apply']
  exact subset_expandStep tenants _ hx

/-- Within the first rounds, some round adds nothing: the reached set can
grow at most as often as the universe has elements. -/
theorem exists_stable_step (tenants : List TenantRecord) (root : String) :
    ∃ k ≤ tenants.length,
      (Nat.iterate (expandStep tenants) k [root]).toFinset =
        (Nat.iterate (expandStep tenants) (k + 1) [root]).toFinset := by
  by_contra hno
  push_neg at hno
  have hgrow : ∀ j, j ≤ tenants.length + 1 →
      j + 1 ≤ ((Nat.iterate (expandStep tenants) j [root]).toFinset).card := by
    intro j
    induction j with
    | zero =>
      intro _
      rw [Function.iterate_zero_apply]
      simp
    | succ j ihj =>
      intro hj
      have h1 := ihj (Nat.le_of_succ_le hj)
      have hne := hno j (by omega)
      have hsub : (Nat.iterate (expandStep tenants) j [root]).toFinset ⊆
          (Nat.iterate (expandStep tenants) (j + 1) [root]).toFinset := by
        intro x hx
        rw [List.mem_toFinset] at hx
        exact List.mem_toFinset.mpr
          (iterate_expandStep_subset_succ tenants root j x hx)
      have hss := Finset.card_lt_card (HasSubset.Subset.ssubset_of_ne hsub hne)
      omega
  have hfin := hgrow (tenants.length + 1) le_rfl
  have hle := Finset.card_le_card
    (iterate_expandStep_subset_universe tenants root (tenants.length + 1))
  have huniv := card_tenantUniverse_le tenants root
  omega

/-- Once a round adds nothing, no later round adds anything. -/
theorem stable_propagates (tenants : List TenantRecord) (root : String)
    (k : Nat)
    (hk : (Nat.iterate (expandStep tenants) k [root]).toFinset =
      (Nat.iterate (expandStep tenants) (k + 1) [root]).toFinset) :
    ∀ m, k ≤ m →
      (Nat.iterate (expandStep tenants) m [root]).toFinset =
        (Nat.iterate (expandStep tenants) (m + 1) [root]).toFinset := by
  intro m hm
  induction m with
  | zero =>
    have h0 : k = 0 := Nat.le_zero.mp hm
    subst h0
    exact hk
  | succ m ihm =>
    rcases Nat.eq_or_lt_of_le hm with heq | hlt
    · rw [heq] at hk
      exact hk
    · have hprev := ihm (Nat.lt_succ_iff.mp hlt)
      have hmem : ∀ x, x ∈ Nat.iterate (expandStep tenants) m [root] ↔
          x ∈ Nat.iterate (expandStep tenants) (m + 1) [root] := by
        intro x
        rw [← List.mem_toFinset, hprev, List.mem_toFinset]
      apply Finset.ext
      intro x
      rw [List.mem_toFinset, List.mem_toFinset]
      rw [Function.iterate_succ_apply' (expandStep tenants) m [root]]
      rw [Function.iterate_succ_apply' (expandStep tenants) (m + 1) [root]]
      exact expandStep_mem_congr tenants _ _ hmem x

/-- After as many rounds as there are tenants, the traversal is
saturated. -/
theorem stable_at_length (tenants : List TenantRecord) (root : String) :
    (Nat.iterate (expandStep tenants) tenants.length [root]).toFinset =
      (Nat.iterate (expandStep tenants) (tenants.length + 1) [root]).toFinset := by
  obtain ⟨k, hk, hstable⟩ := exists_stable_step tenants root
  exact stable_propagates tenants root k hstable tenants.length hk

/-- The start node is reached by every number of rounds. -/
theorem mem_iterate_expandStep_self (tenants : List TenantRecord)
    (v : String) (k : Nat) :
    v ∈ Nat.iterate (expandStep tenants) k [v] := by
  induction k with
  | zero =>
    rw [Function.iterate_zero_apply]
    exact List.mem_singleton.mpr rfl
  | succ k ih =>
    rw [Function.iterate_succ_apply']
    exact subset_expandStep tenants _ ih

/-- Every declarative inclusive descendant is reached by the traversal. -/
theorem descendant_mem_list_nodes (tenants : List TenantRecord)
    (root u : String) (h : TenantDescendant tenants root u) :
    u ∈ TenantTree.list_nodes tenants root := by
  induction h with
  | refl => exact mem_iterate_expandStep_self tenants root tenants.length
  | child t hdesc ht hne ih =>
    have hstep : t.uuid ∈ expandStep tenants (TenantTree.list_nodes tenants root) :=
      (mem_expandStep tenants _ t.uuid).mpr
        (Or.inr ⟨t.parent_uuid, ih,
          (mem_tenantChildren tenants t.parent_uuid t.uuid).mpr
            ⟨t, ht, rfl, hne, rfl⟩⟩)
    have h2 : t.uuid ∈
        Nat.iterate (expandStep tenants) (tenants.length + 1) [root] := by
      rw [Function.iterate_succ_apply']
      exact hstep
    have h3 := stable_at_length tenants root
    rw [← List.mem_toFinset, ← h3, List.mem_toFinset] at h2
    exact h2

/-- C6: for every flat tenant listing and every root uuid, list_nodes
returns exactly the root uuid plus the uuids of all tenants transitively
parented under it (the inclusive descendant closure; in particular a leaf
returns exactly itself), and on the example tree of the unit test the
four queried nodes return exactly the sets the test expects. -/
theorem tenant_tree_list_nodes_closure (tenants : List TenantRecord)
    (root u : String) :
    (u ∈ TenantTree.list_nodes tenants root ↔
      TenantDescendant tenants root u) ∧
    (TenantTree.list_nodes exampleTenants ("f")).toFinset = {"f"} ∧
    (TenantTree.list_nodes exampleTenants ("e")).toFinset = {"e", "f"} ∧
    (TenantTree.list_nodes exampleTenants ("a")).toFinset =
      {"a", "b", "c", "d", "g"} ∧
    (TenantTree.list_nodes exampleTenants ("top")).toFinset =
      {"top", "a", "b", "c", "d", "e", "f", "g", "h"} := by
  refine ⟨⟨?_, ?_⟩, by decide, by decide, by decide, by decide⟩
  · intro h
    exact iterate_expandStep_sound tenants root tenants.length u h
  · intro h
    exact descendant_mem_list_nodes tenants root u h

end WazoAuth
